import Mathlib

/-!
# Verification of the FileRAGOllama retrieval core

Shallow embedding of the retrieval core of the repository
(`simple_rag.py`, `api.py`) and proofs about it.

Modelling conventions:
* Text is represented at word granularity: a sentence is a `List String`
  of its whitespace-separated words (the code normalizes whitespace with
  a regex before chunking, so single-space joining is lossless).
* `nltk.sent_tokenize` / `nltk.word_tokenize` are external collaborators;
  functions that consume their output take the tokenized form as an
  argument.  NLTK guarantees sentences are non-empty and concatenate back
  to the input text's words; theorems state these facts as hypotheses
  where they matter.
* numpy / scipy floating-point arithmetic is modelled over `ℚ`; the one
  place a NaN can arise (`scipy.spatial.distance.cosine` on a zero-norm
  vector, a 0/0 division) is modelled with `Option ℚ`, `none` standing
  for NaN.
* Exceptions are modelled with `Except String`.
-/

namespace FileRAG

/-- Model of the Python slice `xs[-k:]` used in `SimpleRAG._chunk_text`
(line 187: `current_chunk.split()[-overlap:]`).  Python's `xs[-0:]` is the
whole list `xs`, and for `k ≥ 1`, `xs[-k:]` is the last `min k xs.length`
elements. -/
def sliceLast (k : Nat) (xs : List String) : List String :=
  if k = 0 then xs else xs.drop (xs.length - k)

/-- The accumulation loop of `SimpleRAG._chunk_text` (simple_rag.py lines
179-196), at word granularity.  State: remaining sentences, the current
buffer `current` (word list of `current_chunk`), the tracked length
`currentLength` (the code's `current_length` variable), and the emitted
chunks so far. -/
def chunkLoop (chunkSize overlap : Nat) :
    List (List String) → List String → Nat → List (List String) → List (List String)
  | [], current, _, chunks =>
      -- `if current_chunk.strip(): chunks.append(current_chunk.strip())`
      if current ≠ [] then chunks ++ [current] else chunks
  | s :: rest, current, currentLength, chunks =>
      let sl := s.length
      if currentLength + sl > chunkSize ∧ current ≠ [] then
        -- emit the buffer, seed the next one with `split()[-overlap:]`
        let ov := sliceLast overlap current
        chunkLoop chunkSize overlap rest (ov ++ s) (ov ++ s).length (chunks ++ [current])
      else
        chunkLoop chunkSize overlap rest (current ++ s) (currentLength + sl) chunks

/-- `SimpleRAG._chunk_text` (simple_rag.py lines 167-198), applied to the
sentence decomposition (`nltk.sent_tokenize`) of the whitespace-normalized
text; each sentence is its list of words. -/
def chunk_text (sentences : List (List String)) (chunkSize overlap : Nat) :
    List (List String) :=
  chunkLoop chunkSize overlap sentences [] 0 []

/-- Words joined by single spaces: the code only ever joins word lists
with `" ".join(...)` after whitespace normalization. -/
def joinWords (ws : List String) : String :=
  " ".intercalate ws

/-- A chunk record as stored in `self.chunks` (simple_rag.py lines
268-276). -/
structure Chunk where
  id : String
  file_id : String
  text : String
  filename : String
  chunk_index : Nat
deriving DecidableEq, Inhabited

/-- A file-metadata record, one entry of `self.file_metadata`
(simple_rag.py lines 258-264); the dict is modelled as a list keyed by
`id` (uuid4 keys are fresh). -/
structure FileMeta where
  id : String
  filename : String
  file_size : Nat
  chunk_count : Nat
deriving DecidableEq

/-- The mutable corpus state of a `SimpleRAG` instance: `self.chunks` and
`self.file_metadata`.  (`self.embeddings` is recomputed from the chunk
texts on every mutation; queries receive the resulting per-chunk
similarity row explicitly, see `find_similar_chunks`.) -/
structure RAGState where
  chunks : List Chunk
  file_metadata : List FileMeta
deriving DecidableEq

/-- The dictionary returned by a successful `upload_file` (simple_rag.py
lines 284-289). -/
structure UploadResult where
  file_id : String
  filename : String
  chunk_count : Nat
  file_size : Nat
deriving DecidableEq

/-- `SimpleRAG.upload_file` (simple_rag.py lines 239-292).  The extracted
text is supplied as its sentence decomposition (each sentence a word
list); `text.strip()` being empty is equivalent to the text having no
words, i.e. `sentences.flatten = []`.  The uuid4 `file_id` is an input from
the environment.  There is no content-hash lookup anywhere in the
function: a fresh metadata entry and fresh chunks are appended
unconditionally once the text is non-empty. -/
def upload_file (st : RAGState) (sentences : List (List String))
    (file_id filename : String) (file_size : Nat) :
    Except String (RAGState × UploadResult) :=
  if sentences.flatten = [] then
    .error "Error uploading file: No text content found in file"
  else
    let cks := chunk_text sentences 500 50
    let meta : FileMeta := ⟨file_id, filename, file_size, cks.length⟩
    let newChunks := cks.enum.map fun p =>
      (⟨file_id ++ "_" ++ toString p.1, file_id, joinWords p.2, filename, p.1⟩ : Chunk)
    .ok ({ chunks := st.chunks ++ newChunks,
           file_metadata := st.file_metadata ++ [meta] },
         ⟨file_id, filename, cks.length, file_size⟩)

/-- `SimpleRAG.delete_file` (simple_rag.py lines 298-320): `False` when
the id is absent (state untouched); otherwise remove the metadata entry
and every chunk whose `file_id` matches, and return `True`. -/
def delete_file (st : RAGState) (file_id : String) : RAGState × Bool :=
  if st.file_metadata.all (fun m => m.id != file_id) then
    (st, false)
  else
    ({ chunks := st.chunks.filter (fun c => c.file_id != file_id),
       file_metadata := st.file_metadata.filter (fun m => m.id != file_id) },
     true)

/-- The comparison a stable ascending `np.argsort(sims)` realises on
positions: by similarity, ties by ascending position. -/
def argLe (sims : List ℚ) (i j : Nat) : Prop :=
  sims.getD i 0 < sims.getD j 0 ∨ (sims.getD i 0 = sims.getD j 0 ∧ i ≤ j)

instance (sims : List ℚ) : DecidableRel (argLe sims) := fun i j => by
  unfold argLe; infer_instance

instance (sims : List ℚ) : IsTotal Nat (argLe sims) where
  total i j := by
    unfold argLe
    rcases lt_trichotomy (sims.getD i 0) (sims.getD j 0) with h | h | h
    · exact Or.inl (Or.inl h)
    · rcases Nat.le_total i j with hij | hij
      · exact Or.inl (Or.inr ⟨h, hij⟩)
      · exact Or.inr (Or.inr ⟨h.symm, hij⟩)
    · exact Or.inr (Or.inl h)

instance (sims : List ℚ) : IsTrans Nat (argLe sims) where
  trans i j k hij hjk := by
    unfold argLe at *
    rcases hij with h1 | ⟨e1, l1⟩ <;> rcases hjk with h2 | ⟨e2, l2⟩
    · exact Or.inl (h1.trans h2)
    · exact Or.inl (e2 ▸ h1)
    · exact Or.inl (e1 ▸ h2)
    · exact Or.inr ⟨e1.trans e2, l1.trans l2⟩

/-- A concrete instance of `np.argsort(similarities)` (simple_rag.py line
339): an ascending sort of the positions `0, ..., n-1` by similarity.
numpy's default `kind='quicksort'` is documented *non-stable*, so the
relative order of equal scores is not guaranteed in general; this
deterministic instance (stable, by the lexicographic key
(similarity, position)) coincides with numpy on arrays below numpy's
insertion-sort cutoff and is otherwise one admissible outcome.
Properties that could depend on tie order are therefore stated over the
`IsArgsort` interface below, not over this instance. -/
def argsort (sims : List ℚ) : List Nat :=
  List.insertionSort (argLe sims) (List.range sims.length)

/-- What `np.argsort` guarantees regardless of sort kind: the result is
a permutation of the positions `0, ..., n-1`, ascending by similarity.
Nothing is guaranteed about the relative order of equal scores (the
default quicksort is not stable). -/
def IsArgsort (sims : List ℚ) (idxs : List Nat) : Prop :=
  idxs.Perm (List.range sims.length) ∧
  idxs.Pairwise fun i j => sims.getD i 0 ≤ sims.getD j 0

/-- `find_similar_chunks` with the argsort outcome abstracted, to state
the properties that hold for *every* index order numpy may produce. -/
def find_similar_chunks_with (chunks : List Chunk) (sims : List ℚ)
    (idxs : List Nat) (max_results : Nat) : List (Chunk × ℚ) :=
  if chunks = [] then []
  else
    (idxs.reverse.take max_results).filterMap fun i =>
      if (1 : ℚ)/10 < sims.getD i 0 then some (chunks.getD i default, sims.getD i 0)
      else none

/-- `np.argsort(similarities)[::-1][:max_results]` (simple_rag.py line
339). -/
def topIndices (sims : List ℚ) (max_results : Nat) : List Nat :=
  (argsort sims).reverse.take max_results

/-- `SimpleRAG.find_similar_chunks` (simple_rag.py lines 322-352) given
the computed similarity row `sims` (one cosine score per stored chunk):
`np.argsort(similarities)[::-1][:max_results]`, then keep only the
candidates with `similarities[idx] > 0.1`, pairing each surviving chunk
with its score.  (`self.embeddings is None` can only hold when
`self.chunks` is empty, so the early-return guard is the emptiness of
`chunks`.) -/
def find_similar_chunks (chunks : List Chunk) (sims : List ℚ) (max_results : Nat) :
    List (Chunk × ℚ) :=
  if chunks = [] then []
  else
    (topIndices sims max_results).filterMap fun i =>
      if (1 : ℚ)/10 < sims.getD i 0 then some (chunks.getD i default, sims.getD i 0)
      else none

/-- `find_similar_chunks` including its `try/except` (simple_rag.py lines
350-352): a failure while computing the query embedding or the similarity
row is absorbed into an empty result list. -/
def find_similar_chunks_r (chunks : List Chunk) (simsE : Except String (List ℚ))
    (max_results : Nat) : List (Chunk × ℚ) :=
  match simsE with
  | .error _ => []
  | .ok sims => find_similar_chunks chunks sims max_results

/-- A sentence of the best chunk together with its tokenization:
`words` models `word_tokenize(text.lower())`. -/
structure Sent where
  text : String
  words : List String
deriving DecidableEq

/-- `SimpleRAG._generate_basic_answer` (simple_rag.py lines 400-432),
applied to the sentence decomposition of the best chunk.
`questionWords` models `word_tokenize(question.lower())` and
`stop_words` the NLTK English stop-word list; the Python sets are
modelled by `dedup` (membership-counting is order-independent).  The
`scored_sentences` loop appends only sentences with positive overlap;
`list.sort(key=..., reverse=True)` is a stable descending sort. -/
def generate_basic_answer (questionWords stop_words : List String)
    (sentences : List Sent) : String :=
  let question_words := questionWords.dedup.filter fun w => decide (w ∉ stop_words)
  let scored_sentences := sentences.foldl
    (fun acc s =>
      let overlap := (question_words.filter fun w => decide (w ∈ s.words)).length
      if overlap > 0 then acc ++ [(s, overlap)] else acc) []
  if scored_sentences ≠ [] then
    let sorted := scored_sentences.insertionSort fun a b => b.2 ≤ a.2
    joinWords ((sorted.take 3).map fun p => p.1.text)
  else
    joinWords ((sentences.take 2).map Sent.text)

/-- The result dictionary of `generate_answer` (simple_rag.py lines
361-366, 385-390). -/
structure AnswerResult where
  answer : String
  sources : List String
  confidence : ℚ
  context : String
deriving DecidableEq

/-- The fixed insufficient-information answer (simple_rag.py line 362). -/
def insufficientInfo : String :=
  "I don\x27t have enough information to answer that question. Please upload relevant documents first."

/-- `SimpleRAG.generate_answer` (simple_rag.py lines 354-398).  `sentTok`
models `sent_tokenize` plus per-sentence `word_tokenize` on the best
chunk's text; `simsE` is the outcome of the similarity computation
(absorbed to `[]` on failure inside `find_similar_chunks`).  `sources`
is `list(set(...))`, modelled as first-occurrence `dedup`; `confidence`
is `np.mean` of the similarities. -/
def generate_answer (questionWords stop_words : List String)
    (sentTok : String → List Sent) (chunks : List Chunk)
    (simsE : Except String (List ℚ)) (max_results : Nat) : AnswerResult :=
  let similar_chunks := find_similar_chunks_r chunks simsE max_results
  if similar_chunks = [] then
    ⟨insufficientInfo, [], 0, ""⟩
  else
    let context_parts := similar_chunks.map fun r => r.1.text
    let sources := (similar_chunks.map fun r => r.1.filename).dedup
    let context := "\n\n".intercalate context_parts
    let confidence := (similar_chunks.map Prod.snd).sum / similar_chunks.length
    let answer := generate_basic_answer questionWords stop_words
      (sentTok (similar_chunks.headD default).1.text)
    ⟨answer, sources, confidence, context⟩

/-- The outer `try/except` of `generate_answer` (simple_rag.py lines
392-398): any exception raised by the body is converted into an error
answer with empty sources, zero confidence and empty context. -/
def generate_answer_guarded (bodyE : Except String AnswerResult) : AnswerResult :=
  match bodyE with
  | .ok r => r
  | .error e => ⟨"Error generating answer: " ++ e, [], 0, ""⟩

/-- Dot product of two equal-length vectors (`scipy` reduces the cosine
distance to the three products below; the `np.average` normalisations it
uses cancel in the quotient). -/
def dotq (a b : List ℚ) : ℚ :=
  (a.zipWith (· * ·) b).sum

/-- Python's built-in two-argument `min(a, b)`: it returns `b` only when
`b < a` compares true.  A float is modelled as `Option ℚ` with `none`
standing for NaN; every comparison against NaN is false, so
`min(NaN, x) = NaN` while `min(x, NaN) = x`. -/
def pymin (a b : Option ℚ) : Option ℚ :=
  match a, b with
  | some x, some y => if y < x then some y else some x
  | none, _ => none
  | some x, none => some x

/-- Python's built-in two-argument `max(a, b)`: it returns `b` only when
`b > a` compares true; every comparison against NaN is false, so
`max(NaN, x) = NaN` while `max(x, NaN) = x`. -/
def pymax (a b : Option ℚ) : Option ℚ :=
  match a, b with
  | some x, some y => if x < y then some y else some x
  | none, _ => none
  | some x, none => some x

/-- `scipy.spatial.distance.cosine(u, v)`, which is
`correlation(u, v, centered=False)`: the distance
`1 - uv / sqrt(uu * vv)` — NaN exactly when the denominator is `0.0`,
i.e. `uu * vv = 0` (a zero-norm input makes the division `0.0 / 0.0`) —
followed by scipy's rounding-error guard `max(0, min(dist, 2.0))`.
Because Python's `min`/`max` swallow the NaN as above
(`min(NaN, 2.0) = NaN`, then `max(0, NaN) = 0`), a NaN distance
collapses to `0`, so the function always returns a defined float in
`[0, 2]`.  `sqrtq` is the ambient `math.sqrt`. -/
def scipy_cosine (sqrtq : ℚ → ℚ) (u v : List ℚ) : Option ℚ :=
  let uv := dotq u v
  let uu := dotq u u
  let vv := dotq v v
  let dist : Option ℚ :=
    if uu * vv = 0 then none
    else some (1 - uv / sqrtq (uu * vv))
  pymax (some 0) (pymin dist (some 2))

/-- `calculate_similarity` (api.py lines 235-245): `0.0` when either
embedding list is empty (Python falsiness), else
`1 - scipy.spatial.distance.cosine(e1, e2)`.  The only NaN that can
arise (zero-norm input) is collapsed to distance `0` inside scipy's
final `max(0, min(dist, 2.0))`, so the similarity returned for a
zero-norm non-empty vector is `1 - 0 = 1.0`. -/
def calculate_similarity (sqrtq : ℚ → ℚ) (e1 e2 : List ℚ) : Option ℚ :=
  if e1 = [] ∨ e2 = [] then some 0
  else (scipy_cosine sqrtq e1 e2).map fun d => 1 - d

/-- The extractive-fallback rule as claim C3 literally states it: rank
*all* sentences of the best chunk by descending overlap (stable) and
concatenate the top 3; only when *no* sentence has nonzero overlap fall
back to the first 2 sentences.  Second definition written from the
spec/claim wording, to be compared against `generate_basic_answer`. -/
def basicAnswerClaim (questionWords stop_words : List String)
    (sentences : List Sent) : String :=
  let qws := questionWords.dedup.filter fun w => decide (w ∉ stop_words)
  let scoredAll := sentences.map fun s =>
    (s, (qws.filter fun w => decide (w ∈ s.words)).length)
  if scoredAll.all fun p => p.2 == 0 then
    joinWords ((sentences.take 2).map Sent.text)
  else
    joinWords (((scoredAll.insertionSort fun a b => b.2 ≤ a.2).take 3).map
      fun p => p.1.text)

/-- The extractive-fallback rule as amended: only sentences with nonzero
overlap are candidates; they are stable-sorted by descending overlap and
the first (up to) 3 of them are concatenated; when no sentence has
nonzero overlap, the first 2 sentences of the best chunk are
concatenated.  Definition written from the amended wording, to be
compared against the code's `generate_basic_answer`. -/
def basicAnswerSpec (questionWords stop_words : List String)
    (sentences : List Sent) : String :=
  let qws := questionWords.dedup.filter fun w => decide (w ∉ stop_words)
  let scored := (sentences.map fun s =>
      (s, (qws.filter fun w => decide (w ∈ s.words)).length)).filter
    fun p => decide (0 < p.2)
  if scored = [] then
    joinWords ((sentences.take 2).map Sent.text)
  else
    joinWords (((scored.insertionSort fun a b => b.2 ≤ a.2).take 3).map
      fun p => p.1.text)

/-- The word-overlap relation claim C1 ascribes to consecutive chunks,
weakened only as far as the code forces: the first
`k = min overlap (length of chunk i)` words of chunk `i+1` are exactly
the last `k` words of chunk `i` (so exactly `overlap` shared words
whenever chunk `i` has at least `overlap` words). -/
def overlapRel (ov : Nat) (a b : List String) : Prop :=
  b.take (min ov a.length) = a.drop (a.length - min ov a.length)

/-! ## Claims -/

/-- **C7** (confirmed): for every query, when the retrieval result
sequence is empty — in particular on an empty corpus — `generate_answer`
returns the fixed insufficient-information answer with an empty sources
list and confidence exactly 0. -/
theorem C7_empty_retrieval :
    (∀ (sims : List ℚ) (k : Nat), find_similar_chunks [] sims k = []) ∧
    (∀ (qw sw : List String) (sentTok : String → List Sent) (chunks : List Chunk)
      (simsE : Except String (List ℚ)) (k : Nat),
      find_similar_chunks_r chunks simsE k = [] →
      generate_answer qw sw sentTok chunks simsE k = ⟨insufficientInfo, [], 0, ""⟩) ∧
    (∀ (qw sw : List String) (sentTok : String → List Sent)
      (simsE : Except String (List ℚ)) (k : Nat),
      generate_answer qw sw sentTok [] simsE k = ⟨insufficientInfo, [], 0, ""⟩) := by
  have h1 : ∀ (sims : List ℚ) (k : Nat), find_similar_chunks [] sims k = [] := by
    intro sims k
    simp [find_similar_chunks]
  have h2 : ∀ (qw sw : List String) (sentTok : String → List Sent) (chunks : List Chunk)
      (simsE : Except String (List ℚ)) (k : Nat),
      find_similar_chunks_r chunks simsE k = [] →
      generate_answer qw sw sentTok chunks simsE k = ⟨insufficientInfo, [], 0, ""⟩ := by
    intro qw sw sentTok chunks simsE k h
    simp [generate_answer, h]
  refine ⟨h1, h2, fun qw sw sentTok simsE k => h2 qw sw sentTok [] simsE k ?_⟩
  cases simsE with
  | error e => rfl
  | ok sims => exact h1 sims k

/-- Witness for `C7_empty_retrieval` at a concrete input. -/
theorem C7_empty_retrieval_witness :
    generate_answer [] [] (fun _ => []) [] (.ok []) 5 = ⟨insufficientInfo, [], 0, ""⟩ :=
  C7_empty_retrieval.2.1 [] [] (fun _ => []) [] (.ok []) 5 (by decide)

/-- **C10** (confirmed): `generate_answer` is a total function of its
inputs, and every internal-failure path is absorbed: a failure inside
`find_similar_chunks` yields the insufficient-information result, and an
exception in the body of `generate_answer` yields an error result; in
both cases the sources list is empty, the confidence is exactly 0 and the
context is empty. -/
theorem C10_error_absorption :
    (∀ (qw sw : List String) (sentTok : String → List Sent) (chunks : List Chunk)
      (e : String) (k : Nat),
      generate_answer qw sw sentTok chunks (.error e) k =
        ⟨insufficientInfo, [], 0, ""⟩) ∧
    (∀ e, generate_answer_guarded (.error e) =
      ⟨"Error generating answer: " ++ e, [], 0, ""⟩) ∧
    (∀ e, (generate_answer_guarded (.error e)).sources = [] ∧
      (generate_answer_guarded (.error e)).confidence = 0 ∧
      (generate_answer_guarded (.error e)).context = "") := by
  refine ⟨fun qw sw sentTok chunks e k => ?_, fun e => rfl, fun e => ⟨rfl, rfl, rfl⟩⟩
  have h : find_similar_chunks_r chunks (.error e) k = [] := rfl
  simp [generate_answer, h]

/-- **C4, counterexample**: the claim states that a candidate whose
similarity is exactly the threshold 0.1 is kept.  In the code the filter
is the strict `similarities[idx] > 0.1` (simple_rag.py line 343): a
single-chunk corpus whose similarity is exactly 1/10 yields an empty
result list, so the candidate at the threshold is dropped. -/
theorem C4_counterexample :
    find_similar_chunks [⟨"c0", "f0", "text", "doc.txt", 0⟩] [(1 : ℚ)/10] 5 = [] := by
  norm_num [find_similar_chunks, topIndices, argsort, argLe, List.insertionSort,
    List.orderedInsert, List.filterMap_cons, List.getD]

/-- **C4** (amended): retrieval never returns a result whose similarity
is less than **or equal to** the threshold 0.1 (strict inequality; a
candidate at exactly 0.1 is dropped), and when no candidate exceeds the
threshold the result is the empty sequence rather than an error. -/
theorem C4_threshold (chunks : List Chunk) (sims : List ℚ) (k : Nat) :
    (∀ p ∈ find_similar_chunks chunks sims k, (1 : ℚ)/10 < p.2) ∧
    ((∀ s ∈ sims, s ≤ (1 : ℚ)/10) → find_similar_chunks chunks sims k = []) := by
  constructor
  · intro p hp
    unfold find_similar_chunks at hp
    split at hp
    · simp at hp
    · rw [List.mem_filterMap] at hp
      obtain ⟨i, _, hsome⟩ := hp
      by_cases hc : (1 : ℚ)/10 < sims.getD i 0
      · rw [if_pos hc] at hsome
        cases hsome
        exact hc
      · rw [if_neg hc] at hsome
        cases hsome
  · intro h
    unfold find_similar_chunks
    split
    · rfl
    · rw [List.filterMap_eq_nil_iff]
      intro i _
      have hle : ¬ (1 : ℚ)/10 < sims.getD i 0 := by
        rcases lt_or_le i sims.length with hlen | hlen
        · rw [List.getD_eq_getElem _ _ hlen]
          exact not_lt.mpr (h _ (List.getElem_mem hlen))
        · rw [List.getD_eq_default _ _ hlen]
          norm_num
      rw [if_neg hle]

/-- Witness for `C4_threshold` at a concrete input. -/
theorem C4_threshold_witness :
    find_similar_chunks [⟨"c0", "f0", "text", "doc.txt", 0⟩] [(1 : ℚ)/20] 5 = [] :=
  (C4_threshold [⟨"c0", "f0", "text", "doc.txt", 0⟩] [(1 : ℚ)/20] 5).2 (by
    intro s hs
    rw [List.mem_singleton] at hs
    subst hs
    norm_num)

/-- `scipy_cosine` always returns a defined value in `[0, 2]`: the
rounding-error guard `max(0, min(dist, 2.0))` clips defined distances
and collapses the NaN of a zero-norm input to `0`. -/
theorem scipy_cosine_mem (sqrtq : ℚ → ℚ) (u v : List ℚ) :
    ∃ d, scipy_cosine sqrtq u v = some d ∧ 0 ≤ d ∧ d ≤ 2 := by
  unfold scipy_cosine
  dsimp only
  by_cases h0 : dotq u u * dotq v v = 0
  · rw [if_pos h0]
    exact ⟨0, rfl, le_refl 0, by norm_num⟩
  · rw [if_neg h0]
    set y := 1 - dotq u v / sqrtq (dotq u u * dotq v v) with hy
    by_cases h2 : (2 : ℚ) < y
    · simp only [pymin, if_pos h2, pymax]
      rw [if_pos (by norm_num : (0 : ℚ) < 2)]
      exact ⟨2, rfl, by norm_num, le_refl 2⟩
    · simp only [pymin, if_neg h2, pymax]
      by_cases hy0 : (0 : ℚ) < y
      · rw [if_pos hy0]
        exact ⟨y, rfl, le_of_lt hy0, not_lt.mp h2⟩
      · rw [if_neg hy0]
        exact ⟨0, rfl, le_refl 0, by norm_num⟩

/-- **C6, counterexample**: the claim states that a zero-norm vector
always scores exactly 0.  The code (api.py lines 235-245) only guards
*empty* embedding lists; for the zero-norm non-empty vector `[0]`
against `[1]`, scipy's cosine divides 0 by 0 (NaN), and its final
`max(0, min(dist, 2.0))` swallows the NaN into distance 0 — so
`calculate_similarity` returns similarity `1.0`, maximal similarity,
not 0. -/
theorem C6_counterexample :
    calculate_similarity id [(0 : ℚ)] [1] = some 1 ∧
    calculate_similarity id [(0 : ℚ)] [1] ≠ some 0 := by
  have h : calculate_similarity id [(0 : ℚ)] [1] = some 1 := by
    norm_num [calculate_similarity, scipy_cosine, dotq, pymin, pymax]
  exact ⟨h, by simp [h]⟩

/-- **C6** (amended): the function always returns a defined score in
[-1, 1] and never raises (scipy's guard `max(0, min(dist, 2.0))` clips
the distance and swallows the only possible NaN); *empty* embedding
lists score exactly 0; but a zero-norm **non-empty** vector scores
exactly 1 — the NaN distance collapses to 0, so the similarity is
`1 - 0 = 1.0`, not the claimed 0. -/
theorem C6_similarity_bounds (sqrtq : ℚ → ℚ) (e1 e2 : List ℚ) :
    (∃ x, calculate_similarity sqrtq e1 e2 = some x ∧ -1 ≤ x ∧ x ≤ 1) ∧
    (e1 = [] ∨ e2 = [] → calculate_similarity sqrtq e1 e2 = some 0) ∧
    (e1 ≠ [] → e2 ≠ [] → dotq e1 e1 * dotq e2 e2 = 0 →
      calculate_similarity sqrtq e1 e2 = some 1) := by
  refine ⟨?_, ?_, ?_⟩
  · unfold calculate_similarity
    by_cases h : e1 = [] ∨ e2 = []
    · rw [if_pos h]
      exact ⟨0, rfl, by norm_num, by norm_num⟩
    · rw [if_neg h]
      obtain ⟨d, hd, hd0, hd2⟩ := scipy_cosine_mem sqrtq e1 e2
      refine ⟨1 - d, ?_, by linarith, by linarith⟩
      rw [hd]
      rfl
  · intro h
    unfold calculate_similarity
    rw [if_pos h]
  · intro h1 h2 h0
    have hcos : scipy_cosine sqrtq e1 e2 = some 0 := by
      unfold scipy_cosine
      dsimp only
      rw [if_pos h0]
      rfl
    unfold calculate_similarity
    rw [if_neg (by tauto), hcos]
    norm_num

/-- Witness for `C6_similarity_bounds` at a concrete input. -/
theorem C6_similarity_bounds_witness :
    calculate_similarity id [] [(1 : ℚ)] = some 0 :=
  (C6_similarity_bounds id [] [(1 : ℚ)]).2.1 (Or.inl rfl)

/-- **C2, counterexample**: the claim states that a second ingest of
identical raw bytes is rejected with a `DuplicateDocument` error, leaving
document and chunk counts unchanged.  `upload_file` performs no
content-hash (or any other duplicate) check: uploading the same extracted
text twice succeeds both times — the second call returns a success value
and the corpus ends with 2 documents and 2 chunks, not 1 and 1. -/
theorem C2_counterexample :
    upload_file ⟨[], []⟩ [["hello", "world."]] "u1" "f.txt" 5 =
      .ok (⟨[⟨"u1_0", "u1", "hello world.", "f.txt", 0⟩], [⟨"u1", "f.txt", 5, 1⟩]⟩,
           ⟨"u1", "f.txt", 1, 5⟩) ∧
    upload_file ⟨[⟨"u1_0", "u1", "hello world.", "f.txt", 0⟩], [⟨"u1", "f.txt", 5, 1⟩]⟩
        [["hello", "world."]] "u2" "f.txt" 5 =
      .ok (⟨[⟨"u1_0", "u1", "hello world.", "f.txt", 0⟩,
             ⟨"u2_0", "u2", "hello world.", "f.txt", 0⟩],
            [⟨"u1", "f.txt", 5, 1⟩, ⟨"u2", "f.txt", 5, 1⟩]⟩,
           ⟨"u2", "f.txt", 1, 5⟩) :=
  ⟨rfl, rfl⟩

/-- **C2** (amended): ingestion performs no deduplication: *every* call
on non-empty text — in particular a second call with bytes, filename and
extracted text identical to an earlier one — succeeds, creates a fresh
document under the supplied (fresh uuid) id, increments the document
count by exactly 1 and appends exactly the new document's chunks. -/
theorem C2_no_dedup (st : RAGState) (sentences : List (List String))
    (fid fn : String) (sz : Nat) (h : sentences.flatten ≠ []) :
    ∃ st' r, upload_file st sentences fid fn sz = .ok (st', r) ∧
      st'.file_metadata.length = st.file_metadata.length + 1 ∧
      st'.chunks.length = st.chunks.length + (chunk_text sentences 500 50).length ∧
      r.file_id = fid := by
  have heq : upload_file st sentences fid fn sz = .ok
      ({ chunks := st.chunks ++ (chunk_text sentences 500 50).enum.map (fun p =>
           (⟨fid ++ "_" ++ toString p.1, fid, joinWords p.2, fn, p.1⟩ : Chunk)),
         file_metadata :=
           st.file_metadata ++ [⟨fid, fn, sz, (chunk_text sentences 500 50).length⟩] },
       ⟨fid, fn, (chunk_text sentences 500 50).length, sz⟩) := by
    rw [upload_file, if_neg h]
  exact ⟨_, _, heq, by simp, by simp, rfl⟩

/-- Witness for `C2_no_dedup` at a concrete input. -/
theorem C2_no_dedup_witness :
    ∃ st' r, upload_file ⟨[], []⟩ [["hi", "there."]] "u9" "g.txt" 2 = .ok (st', r) ∧
      st'.file_metadata.length = (⟨[], []⟩ : RAGState).file_metadata.length + 1 ∧
      st'.chunks.length = (⟨[], []⟩ : RAGState).chunks.length +
        (chunk_text [["hi", "there."]] 500 50).length ∧
      r.file_id = "u9" :=
  C2_no_dedup ⟨[], []⟩ [["hi", "there."]] "u9" "g.txt" 2 (by decide)

/-- If the whole remaining text fits within the chunk size, the
accumulation loop never splits: everything lands in one final buffer. -/
theorem chunkLoop_no_split (cs ov : Nat) (ss : List (List String)) :
    ∀ (current : List String) (chunks : List (List String)),
      current.length + ss.flatten.length ≤ cs →
      chunkLoop cs ov ss current current.length chunks =
        if current ++ ss.flatten = [] then chunks
        else chunks ++ [current ++ ss.flatten] := by
  induction ss with
  | nil =>
      intro current chunks h
      by_cases hc : current = [] <;> simp [chunkLoop, hc]
  | cons s rest ih =>
      intro current chunks h
      rw [chunkLoop]
      have hflat : (s :: rest).flatten = s ++ rest.flatten := by simp
      rw [hflat] at h
      have hcond : ¬ (current.length + s.length > cs ∧ current ≠ []) := by
        rintro ⟨hgt, -⟩
        rw [List.length_append] at h
        omega
      rw [if_neg hcond]
      have hlen : current.length + s.length = (current ++ s).length :=
        (List.length_append current s).symm
      rw [hlen, ih (current ++ s) chunks (by rw [List.length_append] at h ⊢; omega)]
      simp [List.append_assoc]

/-- **C8** (confirmed): (i) a non-empty text whose total word count is at
most `size` yields exactly one chunk (the whole text); (ii) empty or
whitespace-only text (no sentences after normalization) yields zero
chunks; (iii) ingestion of whitespace-only text fails with an error
before any corpus entry is created. -/
theorem C8_edge_cases :
    (∀ (sentences : List (List String)) (cs ov : Nat),
      ov < cs → sentences ≠ [] → (∀ s ∈ sentences, s ≠ []) →
      sentences.flatten.length ≤ cs →
      chunk_text sentences cs ov = [sentences.flatten]) ∧
    (∀ cs ov, chunk_text [] cs ov = []) ∧
    (∀ (st : RAGState) (sentences : List (List String)) (fid fn : String) (sz : Nat),
      sentences.flatten = [] →
      upload_file st sentences fid fn sz =
        .error "Error uploading file: No text content found in file") := by
  refine ⟨?_, ?_, ?_⟩
  · intro sentences cs ov _ hne hnonempty hlen
    have hflat : sentences.flatten ≠ [] := by
      cases sentences with
      | nil => exact absurd rfl hne
      | cons s rest =>
        have hs : s ≠ [] := hnonempty s (by simp)
        simp only [List.flatten_cons, ne_eq, List.append_eq_nil]
        rintro ⟨h1, -⟩
        exact hs h1
    show chunkLoop cs ov sentences [] ([] : List String).length [] = [sentences.flatten]
    rw [chunkLoop_no_split cs ov sentences [] [] (by simpa using hlen)]
    simp [hflat]
  · intro cs ov
    rfl
  · intro st sentences fid fn sz h
    rw [upload_file, if_pos h]

/-- Witness for `C8_edge_cases` at a concrete input. -/
theorem C8_edge_cases_witness :
    chunk_text [["a", "b."]] 10 2 = [["a", "b."]] :=
  C8_edge_cases.1 [["a", "b."]] 10 2 (by decide) (by decide) (by decide) (by decide)

/-- `delete_file` either reports an absent id with the state unchanged,
or removes exactly the metadata entry and the chunks of the given id. -/
theorem delete_file_spec (st : RAGState) (fid : String) :
    (delete_file st fid = (st, false) ∧
      st.file_metadata.all (fun m => m.id != fid) = true) ∨
    delete_file st fid =
      ({ chunks := st.chunks.filter (fun c => c.file_id != fid),
         file_metadata := st.file_metadata.filter (fun m => m.id != fid) },
       true) := by
  unfold delete_file
  by_cases h : st.file_metadata.all (fun m => m.id != fid) = true
  · exact Or.inl ⟨if_pos h, h⟩
  · exact Or.inr (if_neg h)

/-- Every result of `find_similar_chunks` is one of the stored chunks
(when the similarity row matches the chunk list in length). -/
theorem find_similar_chunks_mem (chunks : List Chunk) (sims : List ℚ) (k : Nat)
    (hlen : sims.length = chunks.length) :
    ∀ p ∈ find_similar_chunks chunks sims k, p.1 ∈ chunks := by
  intro p hp
  unfold find_similar_chunks at hp
  split at hp
  · simp at hp
  · rw [List.mem_filterMap] at hp
    obtain ⟨i, hi, hsome⟩ := hp
    have hrange : i < sims.length := by
      have h2 : i ∈ argsort sims := by
        unfold topIndices at hi
        exact List.mem_reverse.mp (List.mem_of_mem_take hi)
      have h3 : i ∈ List.range sims.length := by
        unfold argsort at h2
        exact (List.mem_insertionSort _).mp h2
      exact List.mem_range.mp h3
    by_cases hc : (1 : ℚ)/10 < sims.getD i 0
    · rw [if_pos hc] at hsome
      cases hsome
      have hi' : i < chunks.length := hlen ▸ hrange
      rw [List.getD_eq_getElem _ _ hi']
      exact List.getElem_mem hi'
    · rw [if_neg hc] at hsome
      cases hsome

/-- **C9** (confirmed): when the document id is absent, `delete_file` is
a no-op returning `false` with the corpus state unchanged; when it
succeeds, no chunk with that `file_id` and no metadata entry with that id
remains, and no similarity query over the resulting corpus ever returns a
chunk of the deleted document. -/
theorem C9_cascade_delete :
    (∀ (st : RAGState) (fid : String),
      (∀ m ∈ st.file_metadata, m.id ≠ fid) →
      delete_file st fid = (st, false)) ∧
    (∀ (st : RAGState) (fid : String),
      (delete_file st fid).2 = true →
      (∀ c ∈ (delete_file st fid).1.chunks, c.file_id ≠ fid) ∧
      (∀ m ∈ (delete_file st fid).1.file_metadata, m.id ≠ fid)) ∧
    (∀ (st : RAGState) (fid : String) (sims : List ℚ) (k : Nat),
      sims.length = (delete_file st fid).1.chunks.length →
      (delete_file st fid).2 = true →
      ∀ p ∈ find_similar_chunks (delete_file st fid).1.chunks sims k,
        p.1.file_id ≠ fid) := by
  have habsorb : ∀ (st : RAGState) (fid : String),
      (delete_file st fid).2 = true →
      (∀ c ∈ (delete_file st fid).1.chunks, c.file_id ≠ fid) ∧
      (∀ m ∈ (delete_file st fid).1.file_metadata, m.id ≠ fid) := by
    intro st fid h2
    rcases delete_file_spec st fid with ⟨heq, -⟩ | heq
    · rw [heq] at h2
      cases h2
    · rw [heq] at h2 ⊢
      constructor
      · intro c hc
        rw [List.mem_filter] at hc
        exact bne_iff_ne.mp hc.2
      · intro m hm
        rw [List.mem_filter] at hm
        exact bne_iff_ne.mp hm.2
  refine ⟨?_, habsorb, ?_⟩
  · intro st fid h
    unfold delete_file
    rw [if_pos]
    rw [List.all_eq_true]
    intro m hm
    exact bne_iff_ne.mpr (h m hm)
  · intro st fid sims k hlen h2 p hp
    exact (habsorb st fid h2).1 p.1
      (find_similar_chunks_mem (delete_file st fid).1.chunks sims k hlen p hp)

/-- Witness for `C9_cascade_delete` at a concrete input. -/
theorem C9_cascade_delete_witness :
    delete_file ⟨[⟨"u1_0", "u1", "t", "f.txt", 0⟩], [⟨"u1", "f.txt", 5, 1⟩]⟩ "zz" =
      (⟨[⟨"u1_0", "u1", "t", "f.txt", 0⟩], [⟨"u1", "f.txt", 5, 1⟩]⟩, false) :=
  C9_cascade_delete.1 ⟨[⟨"u1_0", "u1", "t", "f.txt", 0⟩], [⟨"u1", "f.txt", 5, 1⟩]⟩ "zz"
    (by decide)

/-- The ascending argsort is pairwise ordered by the lexicographic key
(similarity, position). -/
theorem argsort_pairwise (sims : List ℚ) :
    (argsort sims).Pairwise (argLe sims) :=
  List.sorted_insertionSort (argLe sims) (List.range sims.length)

/-- **C5, counterexample**: the claim states that equal scores are
ordered by ascending chunk index.  With two chunks of the same document
at indices 0 and 1 and equal similarities, the code computes
`np.argsort([0.5, 0.5]) = [0, 1]` (at this size numpy sorts with its
stable insertion sort, so the ascending result is exact) and then
reverses it with `[::-1]`, so the query returns the chunk at index 1
*before* the chunk at index 0: ties come out in descending, not
ascending, index order here — and for larger arrays numpy's unstable
default quicksort guarantees no tie order at all. -/
theorem C5_counterexample :
    find_similar_chunks
        [⟨"c0", "f", "t0", "doc.txt", 0⟩, ⟨"c1", "f", "t1", "doc.txt", 1⟩]
        [1/2, 1/2] 5 =
      [(⟨"c1", "f", "t1", "doc.txt", 1⟩, 1/2), (⟨"c0", "f", "t0", "doc.txt", 0⟩, 1/2)] ∧
    (find_similar_chunks
        [⟨"c0", "f", "t0", "doc.txt", 0⟩, ⟨"c1", "f", "t1", "doc.txt", 1⟩]
        [1/2, 1/2] 5).map (fun p => p.1.chunk_index) = [1, 0] := by
  have h : find_similar_chunks
      [⟨"c0", "f", "t0", "doc.txt", 0⟩, ⟨"c1", "f", "t1", "doc.txt", 1⟩]
      [1/2, 1/2] 5 =
      [(⟨"c1", "f", "t1", "doc.txt", 1⟩, 1/2), (⟨"c0", "f", "t0", "doc.txt", 0⟩, 1/2)] := by
    rw [find_similar_chunks, if_neg (by simp)]
    norm_num [topIndices, argsort, argLe, List.insertionSort, List.orderedInsert,
      List.filterMap_cons, List.getD]
  exact ⟨h, by rw [h]; rfl⟩

/-- **C5** (amended): for *every* index order numpy's (documented
non-stable) argsort may legitimately produce — any ascending-by-score
permutation of the positions — the query considers the first
`max_results` positions of the reversed order and keeps those above the
similarity threshold; the considered positions carry non-increasing
similarity, every considered position dominates (in similarity) every
valid position not considered, and the returned results carry
non-increasing similarity scores.  The relative order of *equal* scores
is not specified (and in particular is not ascending chunk index: on
small arrays, where numpy's sort is its stable insertion sort, ties come
out in descending position order, see `C5_counterexample`).  The
model's concrete `argsort` realises this interface, and the code's
`find_similar_chunks` is the instance at that concrete order. -/
theorem C5_query_order :
    (∀ (sims : List ℚ) (idxs : List Nat) (k : Nat), IsArgsort sims idxs →
      ((idxs.reverse.take k).Pairwise fun i j => sims.getD j 0 ≤ sims.getD i 0) ∧
      (∀ i ∈ idxs.reverse.take k, ∀ j, j < sims.length → j ∉ idxs.reverse.take k →
        sims.getD j 0 ≤ sims.getD i 0) ∧
      (∀ chunks, (find_similar_chunks_with chunks sims idxs k).Pairwise
        fun a b => b.2 ≤ a.2)) ∧
    (∀ sims : List ℚ, IsArgsort sims (argsort sims)) ∧
    (∀ (chunks : List Chunk) (sims : List ℚ) (k : Nat),
      find_similar_chunks chunks sims k =
        find_similar_chunks_with chunks sims (argsort sims) k) := by
  refine ⟨?_, ?_, ?_⟩
  · rintro sims idxs k ⟨hperm, hasc⟩
    have hrev : idxs.reverse.Pairwise fun i j => sims.getD j 0 ≤ sims.getD i 0 :=
      List.pairwise_reverse.mpr hasc
    have htake : (idxs.reverse.take k).Pairwise fun i j =>
        sims.getD j 0 ≤ sims.getD i 0 :=
      hrev.sublist (List.take_sublist k _)
    refine ⟨htake, ?_, ?_⟩
    · intro i hi j hj hnot
      have hjrev : j ∈ idxs.reverse :=
        List.mem_reverse.mpr (hperm.mem_iff.mpr (List.mem_range.mpr hj))
      have hsplit := (List.take_append_drop k idxs.reverse).symm ▸ hrev
      have hdrop : j ∈ idxs.reverse.drop k := by
        rcases List.mem_append.mp
          ((List.take_append_drop k idxs.reverse) ▸ hjrev) with h | h
        · exact absurd h hnot
        · exact h
      exact (List.pairwise_append.mp hsplit).2.2 i hi j hdrop
    · intro chunks
      unfold find_similar_chunks_with
      split
      · exact List.Pairwise.nil
      · rw [List.pairwise_filterMap]
        refine htake.imp ?_
        intro i j hij
        intro p hp q hq
        by_cases hci : (1 : ℚ)/10 < sims.getD i 0
        · rw [if_pos hci] at hp
          by_cases hcj : (1 : ℚ)/10 < sims.getD j 0
          · rw [if_pos hcj] at hq
            simp only [Option.mem_def, Option.some.injEq] at hp hq
            subst hp
            subst hq
            exact hij
          · rw [if_neg hcj] at hq
            exact absurd hq (by simp)
        · rw [if_neg hci] at hp
          exact absurd hp (by simp)
  · intro sims
    constructor
    · exact List.perm_insertionSort (argLe sims) (List.range sims.length)
    · refine (argsort_pairwise sims).imp ?_
      rintro i j (hlt | ⟨heq, -⟩)
      · exact le_of_lt hlt
      · exact le_of_eq heq
  · intro chunks sims k
    rfl

/-- Witness for `C5_query_order` at a concrete input: for similarities
[2, 1], the index order [1, 0] is a valid argsort; with `k = 1` position
0 (score 2) is considered, position 1 (score 1) is not, and the
unconsidered score is dominated. -/
theorem C5_query_order_witness :
    [(2 : ℚ), 1].getD 1 0 ≤ [(2 : ℚ), 1].getD 0 0 :=
  (C5_query_order.1 [(2 : ℚ), 1] [1, 0] 1
    (by
      unfold IsArgsort
      refine ⟨by decide, ?_⟩
      norm_num [List.pairwise_cons, List.getD])).2.1 0
    (by decide) 1 (by norm_num) (by decide)

/-- The `scored_sentences` accumulation loop of `_generate_basic_answer`
is the positive-overlap filter of the scored sentence list. -/
theorem scored_foldl_eq (qws : List String) (sentences : List Sent)
    (acc : List (Sent × Nat)) :
    sentences.foldl (fun acc s =>
      let overlap := (qws.filter fun w => decide (w ∈ s.words)).length
      if overlap > 0 then acc ++ [(s, overlap)] else acc) acc =
    acc ++ (sentences.map fun s =>
      (s, (qws.filter fun w => decide (w ∈ s.words)).length)).filter
        fun p => decide (0 < p.2) := by
  induction sentences generalizing acc with
  | nil => simp
  | cons s rest ih =>
      simp only [List.foldl_cons, List.map_cons, List.filter_cons]
      by_cases h : 0 < (qws.filter fun w => decide (w ∈ s.words)).length
      · simp [h, ih]
      · simp [h, ih]

/-- **C3, counterexample**: with query word "cats" and a best chunk whose
sentences are "cats are mammals." (overlap 1) and "dogs run."
(overlap 0), the code returns only the one positive-overlap sentence,
while the claim's rule — rank *all* sentences and concatenate the top 3 —
would also append the zero-overlap sentence. -/
theorem C3_counterexample :
    generate_basic_answer ["cats"] []
      [⟨"cats are mammals.", ["cats", "are", "mammals", "."]⟩,
       ⟨"dogs run.", ["dogs", "run", "."]⟩] = "cats are mammals." ∧
    basicAnswerClaim ["cats"] []
      [⟨"cats are mammals.", ["cats", "are", "mammals", "."]⟩,
       ⟨"dogs run.", ["dogs", "run", "."]⟩] = "cats are mammals. dogs run." ∧
    ("cats are mammals." : String) ≠ "cats are mammals. dogs run." :=
  ⟨by decide, by decide, by decide⟩

/-- **C3** (amended): the extractive fallback concatenates the top
(up to) 3 sentences *among those with nonzero overlap* with the
stop-word-filtered query word set, ranked by descending overlap with a
stable sort; zero-overlap sentences are never included, and when no
sentence has nonzero overlap the answer is the concatenation of the
first 2 sentences of the best chunk.  The answer field of
`generate_answer` is exactly this function of the best (first-ranked)
chunk whenever retrieval is non-empty. -/
theorem C3_extractive_fallback :
    (∀ (qw sw : List String) (sentences : List Sent),
      generate_basic_answer qw sw sentences = basicAnswerSpec qw sw sentences) ∧
    (∀ (qw sw : List String) (sentTok : String → List Sent) (chunks : List Chunk)
      (simsE : Except String (List ℚ)) (k : Nat),
      find_similar_chunks_r chunks simsE k ≠ [] →
      (generate_answer qw sw sentTok chunks simsE k).answer =
        basicAnswerSpec qw sw
          (sentTok ((find_similar_chunks_r chunks simsE k).headD default).1.text)) := by
  have hmain : ∀ (qw sw : List String) (sentences : List Sent),
      generate_basic_answer qw sw sentences = basicAnswerSpec qw sw sentences := by
    intro qw sw sentences
    unfold generate_basic_answer basicAnswerSpec
    dsimp only
    rw [scored_foldl_eq]
    simp only [List.nil_append]
    split_ifs with h1 h2
    · rfl
    · rfl
    · exact absurd (not_not.mp h1) h2
  refine ⟨hmain, ?_⟩
  intro qw sw sentTok chunks simsE k h
  unfold generate_answer
  rw [if_neg h]
  exact hmain qw sw _

/-- Witness for `C3_extractive_fallback` at a concrete input. -/
theorem C3_extractive_fallback_witness :
    (generate_answer ["cats"] [] (fun _ => []) [⟨"c0", "f0", "t", "doc.txt", 0⟩]
      (.ok [(1 : ℚ)]) 3).answer =
    basicAnswerSpec ["cats"] []
      ((fun _ => ([] : List Sent))
        ((find_similar_chunks_r [⟨"c0", "f0", "t", "doc.txt", 0⟩]
          (.ok [(1 : ℚ)]) 3).headD default).1.text) :=
  C3_extractive_fallback.2 ["cats"] [] (fun _ => []) [⟨"c0", "f0", "t", "doc.txt", 0⟩]
    (.ok [(1 : ℚ)]) 3 (by
      show find_similar_chunks [⟨"c0", "f0", "t", "doc.txt", 0⟩] [(1 : ℚ)] 3 ≠ []
      rw [find_similar_chunks, if_neg (by simp)]
      norm_num [topIndices, argsort, argLe, List.insertionSort, List.orderedInsert,
        List.filterMap_cons, List.getD])

/-- **C1, counterexample**: with `size = 5 > overlap = 3 ≥ 0` and
sentences "a b.", "c d e f.", "g h i j.", the chunker emits three chunks;
the first chunk has only 2 words, so the second chunk is seeded with both
of them and its first 3 words ("a b. c") are not the last 3 words of the
first chunk (which are just "a b.").  The failing pair is (chunk 0,
chunk 1), neither of which is the last chunk, so the claim's "except
possibly at the last chunk" clause does not excuse it. -/
theorem C1_counterexample :
    chunk_text [["a", "b."], ["c", "d", "e", "f."], ["g", "h", "i", "j."]] 5 3 =
      [["a", "b."], ["a", "b.", "c", "d", "e", "f."],
       ["d", "e", "f.", "g", "h", "i", "j."]] ∧
    ¬ (["a", "b.", "c", "d", "e", "f."].take 3 =
       ["a", "b."].drop (["a", "b."].length - 3)) :=
  ⟨by decide, by decide⟩

/-- Appending words at the end of the later chunk preserves the overlap
relation with the earlier chunk. -/
theorem overlapRel_append_right (ov : Nat) (a b s : List String)
    (h : overlapRel ov a b) : overlapRel ov a (b ++ s) := by
  unfold overlapRel at h ⊢
  have hmin : min ov a.length ≤ a.length := min_le_right _ _
  have hlen : (a.drop (a.length - min ov a.length)).length = min ov a.length := by
    rw [List.length_drop]
    omega
  have hble : min ov a.length ≤ b.length := by
    have hlt := congrArg List.length h
    rw [List.length_take, hlen] at hlt
    omega
  rw [List.take_append_eq_append_take, Nat.sub_eq_zero_of_le hble, List.take_zero,
    List.append_nil, h]

/-- The buffer seeded after an emission stands in the overlap relation to
the emitted chunk. -/
theorem overlapRel_sliceLast (ov : Nat) (current s : List String) :
    overlapRel ov current (sliceLast ov current ++ s) := by
  unfold overlapRel sliceLast
  by_cases h0 : ov = 0
  · subst h0
    simp
  · rw [if_neg h0]
    have hlen : (current.drop (current.length - ov)).length = min ov current.length := by
      rw [List.length_drop]
      omega
    rw [List.take_append_eq_append_take, hlen, Nat.sub_self, List.take_zero,
      List.append_nil, List.take_of_length_le (le_of_eq hlen)]
    have harg : current.length - ov = current.length - min ov current.length := by
      omega
    rw [harg]

/-- The seeded buffer is never empty when the emitted chunk was not. -/
theorem sliceLast_ne_nil (ov : Nat) (current : List String) (hc : current ≠ []) :
    sliceLast ov current ≠ [] := by
  unfold sliceLast
  by_cases h0 : ov = 0
  · simp [h0, hc]
  · rw [if_neg h0, ne_eq, List.drop_eq_nil_iff]
    have : 0 < current.length := List.length_pos.mpr hc
    omega

/-- Invariant of the chunking loop: the emitted chunks, extended with the
current buffer, are chainwise in the overlap relation. -/
theorem chunkLoop_chain (cs ov : Nat) (ss : List (List String)) :
    ∀ (current : List String) (chunks : List (List String)),
      (chunks ≠ [] → current ≠ []) →
      (current ≠ [] → (chunks ++ [current]).Chain' (overlapRel ov)) →
      (chunkLoop cs ov ss current current.length chunks).Chain' (overlapRel ov) := by
  induction ss with
  | nil =>
      intro current chunks h1 h2
      rw [chunkLoop]
      by_cases hc : current = []
      · rw [if_neg (by simp [hc])]
        by_cases hck : chunks = []
        · rw [hck]
          exact List.chain'_nil
        · exact absurd (h1 hck) (by simp [hc])
      · rw [if_pos hc]
        exact h2 hc
  | cons s rest ih =>
      intro current chunks h1 h2
      rw [chunkLoop]
      dsimp only
      by_cases hcond : current.length + s.length > cs ∧ current ≠ []
      · rw [if_pos hcond]
        apply ih
        · intro _
          rw [ne_eq, List.append_eq_nil]
          rintro ⟨hseed, -⟩
          exact sliceLast_ne_nil ov current hcond.2 hseed
        · intro _
          apply List.Chain'.append (h2 hcond.2) (List.chain'_singleton _)
          intro x hx y hy
          simp only [List.getLast?_concat, Option.mem_def, Option.some.injEq] at hx
          simp only [List.head?_cons, Option.mem_def, Option.some.injEq] at hy
          subst hx
          subst hy
          exact overlapRel_sliceLast ov current s
      · rw [if_neg hcond]
        rw [show current.length + s.length = (current ++ s).length from
          (List.length_append current s).symm]
        apply ih
        · intro hck
          rw [ne_eq, List.append_eq_nil]
          rintro ⟨hcur, -⟩
          exact h1 hck hcur
        · intro _
          by_cases hc : current = []
          · have hck : chunks = [] := by
              by_contra hck
              exact h1 hck hc
            rw [hck, hc, List.nil_append, List.nil_append]
            exact List.chain'_singleton _
          · have hch := h2 hc
            rw [List.chain'_append] at hch ⊢
            refine ⟨hch.1, List.chain'_singleton _, ?_⟩
            intro x hx y hy
            simp only [List.head?_cons, Option.mem_def, Option.some.injEq] at hy
            subst hy
            exact overlapRel_append_right ov x current s (hch.2.2 x hx current rfl)

/-- **C1** (amended): for every input and all parameters, each pair of
consecutive chunks (including the pair ending at the last chunk)
satisfies: the first `k` words of chunk `i+1` equal the last `k` words of
chunk `i`, where `k = min overlap (word count of chunk i)`; in
particular, whenever chunk `i` has at least `overlap` words, consecutive
chunks share exactly `overlap` words.  (The unamended "exactly `overlap`"
fails when a chunk shorter than `overlap` words is emitted, see
`C1_counterexample`.) -/
theorem C1_overlap (sentences : List (List String)) (cs ov : Nat) :
    (chunk_text sentences cs ov).Chain' (overlapRel ov) ∧
    (∀ (i : Nat) (h : i + 1 < (chunk_text sentences cs ov).length),
      ov ≤ ((chunk_text sentences cs ov).get ⟨i, by omega⟩).length →
      ((chunk_text sentences cs ov).get ⟨i + 1, h⟩).take ov =
        ((chunk_text sentences cs ov).get ⟨i, by omega⟩).drop
          (((chunk_text sentences cs ov).get ⟨i, by omega⟩).length - ov)) := by
  have hchain : (chunk_text sentences cs ov).Chain' (overlapRel ov) := by
    show (chunkLoop cs ov sentences [] ([] : List String).length []).Chain'
      (overlapRel ov)
    apply chunkLoop_chain
    · intro h
      exact absurd rfl h
    · intro h
      exact absurd rfl h
  refine ⟨hchain, ?_⟩
  intro i h hov
  have hrel := (List.chain'_iff_get.mp hchain) i (by omega)
  unfold overlapRel at hrel
  rw [min_eq_left hov] at hrel
  exact hrel

/-- Witness for `C1_overlap` at a concrete input: chunk 1 of the
counterexample run has 6 ≥ 3 words, and chunk 2 indeed begins with its
last 3 words. -/
theorem C1_overlap_witness :
    ((chunk_text [["a", "b."], ["c", "d", "e", "f."], ["g", "h", "i", "j."]] 5 3).get
        ⟨2, by decide⟩).take 3 =
      ((chunk_text [["a", "b."], ["c", "d", "e", "f."], ["g", "h", "i", "j."]] 5 3).get
        ⟨1, by decide⟩).drop
        (((chunk_text [["a", "b."], ["c", "d", "e", "f."], ["g", "h", "i", "j."]] 5 3).get
          ⟨1, by decide⟩).length - 3) :=
  (C1_overlap [["a", "b."], ["c", "d", "e", "f."], ["g", "h", "i", "j."]] 5 3).2 1
    (by decide) (by decide)

end FileRAG
